import Mathlib

/-!
Verification of the task-organization module of the `vscode-task-view`
extension (`src/taskOrganizer.ts`), shallowly embedded in Lean 4.

JavaScript records (`Record<string, T>`) are modelled as association
lists that preserve key-insertion order, matching the insertion-order
semantics of string-keyed JS objects.  JS truthiness on the optional
string fields (`!task.source`, `task.source || 'Unknown'`,
`!task.group`, `task.group.id || 'build'`) is modelled explicitly:
`none` and `some ""` are the falsy values of an optional string.
-/

namespace TaskView

/-- The four status colours of `type TaskStatus`. -/
inductive TaskStatus where
  | grey
  | green
  | yellow
  | red
deriving DecidableEq, Repr

/-- The value of `task.group` when present: either a plain string or a
structured value whose `id` field may itself be absent (`undefined`). -/
inductive TaskGroupValue where
  | str (s : String)
  | structured (id : Option String)
deriving DecidableEq, Repr

/-- The fields of `vscode.Task` that `taskOrganizer.ts` reads:
`name`, `source` (optional string) and `group`. -/
structure Task where
  name : String
  source : Option String
  group : Option TaskGroupValue
deriving DecidableEq, Repr

/-- A `vscode.TaskExecution`: the organizer only reads `execution.task`. -/
structure TaskExecution where
  task : Task
deriving DecidableEq, Repr

/-- `interface TaskGroup`: direct tasks plus subgroups keyed by group name. -/
structure TaskGroup where
  tasks : List Task
  subGroups : List (String × List Task)
deriving DecidableEq, Repr

/-- `interface OrganizedTasks`: workspace tasks plus groups keyed by source. -/
structure OrganizedTasks where
  workspaceTasks : List Task
  sourceGroups : List (String × TaskGroup)
deriving DecidableEq, Repr

/-- JS truthiness of an optional string: `undefined` and `""` are falsy. -/
def strTruthy : Option String → Bool
  | none => false
  | some s => !(s == "")

/-- Key lookup in an association list (JS `obj[key]`, `none` = `undefined`). -/
def lookupAssoc (k : String) : List (String × α) → Option α
  | [] => none
  | (k', v) :: rest => if k' = k then some v else lookupAssoc k rest

/-- JS `obj[key] = value`: overwrite in place if the key exists,
otherwise append the new key at the end (insertion order). -/
def setAssoc (k : String) (v : α) : List (String × α) → List (String × α)
  | [] => [(k, v)]
  | (k', v') :: rest =>
      if k' = k then (k', v) :: rest else (k', v') :: setAssoc k v rest

/-- JS `if (!obj[k]) obj[k] = d; f(obj[k])`: initialize a missing key with
the default `d` (appended at the end), then update the entry with `f`. -/
def upsert (k : String) (d : α) (f : α → α) : List (String × α) → List (String × α)
  | [] => [(k, f d)]
  | (k', v) :: rest =>
      if k' = k then (k', f v) :: rest else (k', v) :: upsert k d f rest

/-- `isWorkspaceTask`: `task.source === 'Workspace' || !task.source`. -/
def isWorkspaceTask (t : Task) : Bool :=
  (t.source == some "Workspace") || !(strTruthy t.source)

/-- `task.source || 'Unknown'` in `organizeProviderTask`. -/
def sourceOrUnknown (t : Task) : String :=
  match t.source with
  | none => "Unknown"
  | some s => if s == "" then "Unknown" else s

/-- `extractTaskGroupName`: `null` when `group` is falsy (absent or `""`);
a plain string is returned as-is; for a structured value,
`task.group.id || 'build'`. -/
def extractTaskGroupName (t : Task) : Option String :=
  match t.group with
  | none => none
  | some (.str s) => if s == "" then none else some s
  | some (.structured i) =>
      match i with
      | none => some "build"
      | some s => if s == "" then some "build" else some s

/-- `organizeProviderTask`: place the task under its source group, either
in the subgroup named by its group id or in the source's direct list. -/
def organizeProviderTask (t : Task) (sourceGroups : List (String × TaskGroup)) :
    List (String × TaskGroup) :=
  let source := sourceOrUnknown t
  match extractTaskGroupName t with
  | some g =>
      upsert source ⟨[], []⟩
        (fun tg => { tg with subGroups := upsert g [] (fun l => l ++ [t]) tg.subGroups })
        sourceGroups
  | none =>
      upsert source ⟨[], []⟩ (fun tg => { tg with tasks := tg.tasks ++ [t] })
        sourceGroups

/-- The body of the `tasks.forEach` loop in `organizeTasks`. -/
def organizeStep (acc : OrganizedTasks) (t : Task) : OrganizedTasks :=
  if isWorkspaceTask t then
    { acc with workspaceTasks := acc.workspaceTasks ++ [t] }
  else
    { acc with sourceGroups := organizeProviderTask t acc.sourceGroups }

/-- `organizeTasks`: fold the classification loop over the input list. -/
def organizeTasks (ts : List Task) : OrganizedTasks :=
  ts.foldl organizeStep ⟨[], []⟩

/-- The status stored for a task name:
`executions.some(e => e.task.name === task.name) ? 'yellow' : 'grey'`. -/
def statusOf (executions : List TaskExecution) (name : String) : TaskStatus :=
  if executions.any (fun e => e.task.name == name) then .yellow else .grey

/-- `createTaskStatuses`: build the name-keyed status record. -/
def createTaskStatuses (tasks : List Task) (executions : List TaskExecution) :
    List (String × TaskStatus) :=
  tasks.foldl (fun m t => setAssoc t.name (statusOf executions t.name) m) []

/-- Keys of an association list, in insertion order. -/
def keysOf (m : List (String × α)) : List String := m.map (fun p => p.1)

/-- Number of occurrences of a task in a list. -/
def countTask (t : Task) (l : List Task) : Nat := l.countP (fun x => decide (x = t))

/-- Total number of tasks stored in a subgroup record. -/
def subSize (sgs : List (String × List Task)) : Nat :=
  (sgs.map (fun p => p.2.length)).sum

/-- Total number of tasks stored in a `TaskGroup`. -/
def tgSize (tg : TaskGroup) : Nat := tg.tasks.length + subSize tg.subGroups

/-- Total number of tasks stored across all buckets of `OrganizedTasks`. -/
def orgSize (o : OrganizedTasks) : Nat :=
  o.workspaceTasks.length + (o.sourceGroups.map (fun p => tgSize p.2)).sum

/-- Occurrences of a task across a subgroup record. -/
def subCount (t : Task) (sgs : List (String × List Task)) : Nat :=
  (sgs.map (fun p => countTask t p.2)).sum

/-- Occurrences of a task across a `TaskGroup`. -/
def tgCount (t : Task) (tg : TaskGroup) : Nat :=
  countTask t tg.tasks + subCount t tg.subGroups

/-- Occurrences of a task across all buckets of `OrganizedTasks`. -/
def orgCount (t : Task) (o : OrganizedTasks) : Nat :=
  countTask t o.workspaceTasks + (o.sourceGroups.map (fun p => tgCount t p.2)).sum

/-- Concrete task with a present-but-empty `source`. -/
def tEmptySource : Task := ⟨"e", some "", none⟩

/-- Concrete task whose `group` is the plain empty string. -/
def tGroupEmptyStr : Task := ⟨"a", some "npm", some (.str "")⟩

/-- Concrete task whose `group` is structured with an empty `id`. -/
def tGroupEmptyId : Task := ⟨"b", some "npm", some (.structured (some ""))⟩

/-- Concrete task with lower-case source `"workspace"`. -/
def wsLowerTask : Task := ⟨"w", some "workspace", none⟩

/-- Concrete task named `"A"`. -/
def taskA : Task := ⟨"A", some "npm", none⟩

/-- Concrete task named `"B"`. -/
def taskB : Task := ⟨"B", some "npm", none⟩

/-- Concrete task named `"C"`. -/
def taskC : Task := ⟨"C", some "npm", none⟩

/-- A running execution referencing `"A"`. -/
def execA : TaskExecution := ⟨taskA⟩

/-- A running execution referencing `"C"`. -/
def execC : TaskExecution := ⟨taskC⟩

/-- Task named `"build"` from source `"npm"`. -/
def buildTaskNpm : Task := ⟨"build", some "npm", none⟩

/-- Task named `"build"` from source `"gulp"`. -/
def buildTaskGulp : Task := ⟨"build", some "gulp", none⟩

/-- A running execution referencing `"build"`. -/
def execBuild : TaskExecution := ⟨buildTaskNpm⟩

example : isWorkspaceTask tEmptySource = true := by decide

example : (organizeTasks [tEmptySource]).workspaceTasks = [tEmptySource] := by decide

example :
    createTaskStatuses [taskA, taskB, taskC] [execA, execC] =
      [("A", .yellow), ("B", .grey), ("C", .yellow)] := by decide

example : extractTaskGroupName tGroupEmptyStr = none := by decide

example : extractTaskGroupName tGroupEmptyId = some "build" := by decide

example :
    createTaskStatuses [buildTaskNpm, buildTaskGulp] [execBuild] =
      [("build", .yellow)] := by decide

example :
    organizeTasks [taskA, tGroupEmptyId] =
      ⟨[], [("npm", ⟨[taskA], [("build", [tGroupEmptyId])]⟩)]⟩ := by decide

section AssocLemmas

variable {α : Type}

theorem lookupAssoc_setAssoc (k k' : String) (v : α) (m : List (String × α)) :
    lookupAssoc k' (setAssoc k v m) = if k = k' then some v else lookupAssoc k' m := by
  induction m with
  | nil => simp [setAssoc, lookupAssoc]
  | cons p rest ih =>
      obtain ⟨a, b⟩ := p
      by_cases h : a = k
      · subst h
        by_cases h' : a = k' <;> simp [setAssoc, lookupAssoc, h']
      · by_cases h' : a = k'
        · subst h'
          have hka : ¬ k = a := fun hk => h hk.symm
          simp [setAssoc, lookupAssoc, h, hka]
        · simp [setAssoc, lookupAssoc, h, h', ih]

theorem mem_setAssoc {p : String × α} (k : String) (v : α) (m : List (String × α)) :
    p ∈ setAssoc k v m → p = (k, v) ∨ p ∈ m := by
  induction m with
  | nil => simp [setAssoc]
  | cons q rest ih =>
      obtain ⟨a, b⟩ := q
      intro hm
      by_cases h : a = k
      · subst h
        simp [setAssoc] at hm
        simp only [List.mem_cons]
        tauto
      · simp [setAssoc, h] at hm
        simp only [List.mem_cons]
        rcases hm with h0 | hm
        · tauto
        · rcases ih hm with h1 | h1 <;> tauto

theorem keysOf_setAssoc (k : String) (v : α) (m : List (String × α)) :
    keysOf (setAssoc k v m) =
      if k ∈ keysOf m then keysOf m else keysOf m ++ [k] := by
  induction m with
  | nil => simp [setAssoc, keysOf]
  | cons q rest ih =>
      obtain ⟨a, b⟩ := q
      by_cases h : a = k
      · subst h
        simp [setAssoc, keysOf]
      · have hka : ¬ k = a := fun hk => h hk.symm
        simp only [setAssoc, if_neg h, keysOf, List.map_cons] at ih ⊢
        rw [ih]
        by_cases hmem : k ∈ rest.map (fun p => (p : String × α).1) <;>
          simp [hmem, hka]

theorem lookupAssoc_isSome (k : String) (m : List (String × α)) :
    (lookupAssoc k m).isSome = true ↔ k ∈ keysOf m := by
  induction m with
  | nil => simp [lookupAssoc, keysOf]
  | cons q rest ih =>
      obtain ⟨a, b⟩ := q
      by_cases h : a = k
      · subst h
        simp [lookupAssoc, keysOf]
      · have hka : ¬ k = a := fun hk => h hk.symm
        simp [lookupAssoc, keysOf, h, hka, ih]

theorem lookupAssoc_upsert_self (k : String) (d : α) (f : α → α)
    (l : List (String × α)) :
    lookupAssoc k (upsert k d f l) = some (f ((lookupAssoc k l).getD d)) := by
  induction l with
  | nil => simp [upsert, lookupAssoc]
  | cons p rest ih =>
      obtain ⟨a, b⟩ := p
      by_cases h : a = k
      · subst h
        simp [upsert, lookupAssoc]
      · simp [upsert, lookupAssoc, h, ih]

theorem lookupAssoc_upsert_ne (a k : String) (d : α) (f : α → α)
    (l : List (String × α)) (h : a ≠ k) :
    lookupAssoc a (upsert k d f l) = lookupAssoc a l := by
  have hka : ¬ k = a := fun hk => h hk.symm
  induction l with
  | nil => simp [upsert, lookupAssoc, hka]
  | cons p rest ih =>
      obtain ⟨b, c⟩ := p
      by_cases hb : b = k
      · subst hb
        simp [upsert, lookupAssoc, hka]
      · simp [upsert, lookupAssoc, hb, ih]

theorem mem_keysOf_upsert (a k : String) (d : α) (f : α → α)
    (l : List (String × α)) :
    a ∈ keysOf (upsert k d f l) ↔ a = k ∨ a ∈ keysOf l := by
  induction l with
  | nil => simp [upsert, keysOf]
  | cons p rest ih =>
      obtain ⟨b, c⟩ := p
      by_cases hb : b = k
      · subst hb
        simp [upsert, keysOf] at ih ⊢
        try tauto
      · simp [upsert, keysOf, hb] at ih ⊢
        try tauto

theorem mem_upsert {p : String × α} (k : String) (d : α) (f : α → α)
    (l : List (String × α)) :
    p ∈ upsert k d f l →
      p ∈ l ∨ ∃ v, p = (k, f v) ∧ ((k, v) ∈ l ∨ v = d) := by
  induction l with
  | nil =>
      intro h
      simp only [upsert, List.mem_singleton] at h
      exact Or.inr ⟨d, h, Or.inr rfl⟩
  | cons q rest ih =>
      obtain ⟨a, b⟩ := q
      intro hm
      by_cases h : a = k
      · subst h
        simp [upsert] at hm
        rcases hm with h0 | hm
        · exact Or.inr ⟨b, h0, Or.inl (List.mem_cons_self _ _)⟩
        · exact Or.inl (List.mem_cons_of_mem _ hm)
      · simp [upsert, h] at hm
        rcases hm with h0 | hm
        · exact Or.inl (by rw [h0]; exact List.mem_cons_self _ _)
        · rcases ih hm with h1 | ⟨v, hv, h2⟩
          · exact Or.inl (List.mem_cons_of_mem _ h1)
          · rcases h2 with h2 | h2
            · exact Or.inr ⟨v, hv, Or.inl (List.mem_cons_of_mem _ h2)⟩
            · exact Or.inr ⟨v, hv, Or.inr h2⟩

theorem sum_map_upsert (g : α → Nat) (k : String) (d : α) (f : α → α) (c : Nat)
    (hf : ∀ v, g (f v) = g v + c) (hd : g d = 0) (l : List (String × α)) :
    ((upsert k d f l).map (fun p => g p.2)).sum =
      (l.map (fun p => g p.2)).sum + c := by
  induction l with
  | nil => simp [upsert, hf, hd]
  | cons p rest ih =>
      obtain ⟨a, b⟩ := p
      by_cases h : a = k
      · subst h
        simp [upsert, hf]
        omega
      · simp [upsert, h, ih]
        omega

end AssocLemmas

section SizeCount

theorem tgSize_pushTask (t : Task) (v : TaskGroup) :
    tgSize { v with tasks := v.tasks ++ [t] } = tgSize v + 1 := by
  simp [tgSize]
  try omega

theorem subSize_upsert (g : String) (t : Task) (sgs : List (String × List Task)) :
    subSize (upsert g [] (fun l => l ++ [t]) sgs) = subSize sgs + 1 := by
  simpa [subSize] using
    sum_map_upsert List.length g [] (fun l => l ++ [t]) 1 (by simp) (by simp) sgs

theorem tgSize_pushSub (g : String) (t : Task) (v : TaskGroup) :
    tgSize { v with subGroups := upsert g [] (fun l => l ++ [t]) v.subGroups } =
      tgSize v + 1 := by
  simp [tgSize, subSize_upsert]
  try omega

theorem orgProviderSize (t : Task) (gs : List (String × TaskGroup)) :
    ((organizeProviderTask t gs).map (fun p => tgSize p.2)).sum =
      (gs.map (fun p => tgSize p.2)).sum + 1 := by
  cases hg : extractTaskGroupName t with
  | none =>
      simp only [organizeProviderTask, hg]
      exact sum_map_upsert tgSize _ ⟨[], []⟩ _ 1 (fun v => tgSize_pushTask t v)
        (by simp [tgSize, subSize]) gs
  | some g =>
      simp only [organizeProviderTask, hg]
      exact sum_map_upsert tgSize _ ⟨[], []⟩ _ 1 (fun v => tgSize_pushSub g t v)
        (by simp [tgSize, subSize]) gs

theorem orgSize_step (acc : OrganizedTasks) (t : Task) :
    orgSize (organizeStep acc t) = orgSize acc + 1 := by
  unfold organizeStep
  by_cases h : isWorkspaceTask t
  · simp [h, orgSize]
    try omega
  · simp [h, orgSize, orgProviderSize]
    try omega

theorem orgSize_foldl (ts : List Task) :
    ∀ acc, orgSize (ts.foldl organizeStep acc) = orgSize acc + ts.length := by
  induction ts with
  | nil => intro acc; simp
  | cons t ts ih =>
      intro acc
      simp only [List.foldl_cons, ih, orgSize_step, List.length_cons]
      omega

theorem countTask_append (x t : Task) (l : List Task) :
    countTask x (l ++ [t]) = countTask x l + (if t = x then 1 else 0) := by
  by_cases h : t = x <;> simp [countTask, List.countP_append, List.countP_cons, h]

theorem countTask_cons (x t : Task) (ts : List Task) :
    countTask x (t :: ts) = countTask x ts + (if t = x then 1 else 0) := by
  by_cases h : t = x <;> simp [countTask, List.countP_cons, h]

theorem tgCount_pushTask (x t : Task) (v : TaskGroup) :
    tgCount x { v with tasks := v.tasks ++ [t] } =
      tgCount x v + (if t = x then 1 else 0) := by
  simp [tgCount, countTask_append]
  try omega

theorem subCount_upsert (x : Task) (g : String) (t : Task)
    (sgs : List (String × List Task)) :
    subCount x (upsert g [] (fun l => l ++ [t]) sgs) =
      subCount x sgs + (if t = x then 1 else 0) := by
  simpa [subCount] using
    sum_map_upsert (countTask x) g [] (fun l => l ++ [t]) (if t = x then 1 else 0)
      (fun v => countTask_append x t v) (by simp [countTask]) sgs

theorem tgCount_pushSub (x : Task) (g : String) (t : Task) (v : TaskGroup) :
    tgCount x { v with subGroups := upsert g [] (fun l => l ++ [t]) v.subGroups } =
      tgCount x v + (if t = x then 1 else 0) := by
  simp [tgCount, subCount_upsert]
  try omega

theorem orgProviderCount (x t : Task) (gs : List (String × TaskGroup)) :
    ((organizeProviderTask t gs).map (fun p => tgCount x p.2)).sum =
      (gs.map (fun p => tgCount x p.2)).sum + (if t = x then 1 else 0) := by
  cases hg : extractTaskGroupName t with
  | none =>
      simp only [organizeProviderTask, hg]
      exact sum_map_upsert (tgCount x) _ ⟨[], []⟩ _ _ (fun v => tgCount_pushTask x t v)
        (by simp [tgCount, subCount, countTask]) gs
  | some g =>
      simp only [organizeProviderTask, hg]
      exact sum_map_upsert (tgCount x) _ ⟨[], []⟩ _ _ (fun v => tgCount_pushSub x g t v)
        (by simp [tgCount, subCount, countTask]) gs

theorem orgCount_step (x : Task) (acc : OrganizedTasks) (t : Task) :
    orgCount x (organizeStep acc t) = orgCount x acc + (if t = x then 1 else 0) := by
  unfold organizeStep
  by_cases h : isWorkspaceTask t
  · simp [h, orgCount, countTask_append]
    try omega
  · simp [h, orgCount, orgProviderCount]
    try omega

theorem orgCount_foldl (x : Task) (ts : List Task) :
    ∀ acc, orgCount x (ts.foldl organizeStep acc) = orgCount x acc + countTask x ts := by
  induction ts with
  | nil => intro acc; simp [countTask]
  | cons t ts ih =>
      intro acc
      simp only [List.foldl_cons, ih, orgCount_step, countTask_cons]
      omega

end SizeCount

/-- C1: `organizeTasks` is a strict partition of its input: the total number
of task descriptors across `workspaceTasks`, every source's direct `tasks`
list and every subgroup list equals the length of the input list, and every
task occurs across these buckets exactly as often as it occurs in the input
(no duplication, no loss). -/
theorem organizeTasks_partition (ts : List Task) :
    orgSize (organizeTasks ts) = ts.length ∧
    ∀ x : Task, orgCount x (organizeTasks ts) = countTask x ts := by
  constructor
  · simpa [orgSize] using orgSize_foldl ts ⟨[], []⟩
  · intro x
    simpa [orgCount, countTask] using orgCount_foldl x ts ⟨[], []⟩

section Statuses

theorem statusOf_cases (execs : List TaskExecution) (name : String) :
    statusOf execs name = TaskStatus.yellow ∨ statusOf execs name = TaskStatus.grey := by
  unfold statusOf
  split <;> simp

theorem statusOf_nil (name : String) : statusOf [] name = TaskStatus.grey := by
  simp [statusOf]

theorem statusFold_lookup (execs : List TaskExecution) (tasks : List Task) :
    ∀ (m : List (String × TaskStatus)) (name : String),
      lookupAssoc name
          (tasks.foldl (fun m t => setAssoc t.name (statusOf execs t.name) m) m) =
        if name ∈ tasks.map Task.name then some (statusOf execs name)
        else lookupAssoc name m := by
  induction tasks with
  | nil => intro m name; simp
  | cons t ts ih =>
      intro m name
      simp only [List.foldl_cons, List.map_cons, List.mem_cons]
      rw [ih]
      by_cases hmem : name ∈ ts.map Task.name
      · simp [hmem]
      · by_cases hn : t.name = name
        · subst hn
          simp [hmem, lookupAssoc_setAssoc]
        · have hnn : ¬ name = t.name := fun h => hn h.symm
          simp [hmem, hnn, lookupAssoc_setAssoc, hn]

theorem mem_statusFold (execs : List TaskExecution) (tasks : List Task) :
    ∀ (m : List (String × TaskStatus)) (p : String × TaskStatus),
      p ∈ tasks.foldl (fun m t => setAssoc t.name (statusOf execs t.name) m) m →
      p ∈ m ∨ ∃ name, p = (name, statusOf execs name) := by
  induction tasks with
  | nil => intro m p h; exact Or.inl h
  | cons t ts ih =>
      intro m p h
      simp only [List.foldl_cons] at h
      rcases ih _ p h with h1 | h1
      · rcases mem_setAssoc _ _ _ h1 with h2 | h2
        · exact Or.inr ⟨t.name, h2⟩
        · exact Or.inl h2
      · exact Or.inr h1

theorem nodup_statusFold (execs : List TaskExecution) (tasks : List Task) :
    ∀ m, (keysOf m).Nodup →
      (keysOf
        (tasks.foldl (fun m t => setAssoc t.name (statusOf execs t.name) m) m)).Nodup := by
  induction tasks with
  | nil => intro m h; exact h
  | cons t ts ih =>
      intro m h
      simp only [List.foldl_cons]
      apply ih
      rw [keysOf_setAssoc]
      by_cases hmem : t.name ∈ keysOf m
      · simpa [hmem] using h
      · simp [hmem, List.nodup_append, h]

end Statuses

/-- Witness for C1 at a concrete input: a single-task input yields exactly
one stored task. -/
theorem organizeTasks_partition_witness :
    orgSize (organizeTasks [taskA]) = 1 := by
  have h := (organizeTasks_partition [taskA]).1
  simpa using h

/-- C2: `createTaskStatuses` maps a task's name to `yellow` (running) iff some
execution references that task's name, and to `grey` (idle) otherwise; only
these two tags ever appear as values (`green` and `red` never occur), an empty
execution list yields `grey` everywhere, and an empty task list yields the
empty map. -/
theorem createTaskStatuses_spec (tasks : List Task) (execs : List TaskExecution) :
    (∀ t, t ∈ tasks →
        lookupAssoc t.name (createTaskStatuses tasks execs) =
          some (if execs.any (fun e => e.task.name == t.name) then TaskStatus.yellow
                else TaskStatus.grey)) ∧
    (∀ t, t ∈ tasks →
        (lookupAssoc t.name (createTaskStatuses tasks execs) = some TaskStatus.yellow ↔
          ∃ e, e ∈ execs ∧ e.task.name = t.name)) ∧
    (∀ p, p ∈ createTaskStatuses tasks execs →
        p.2 = TaskStatus.yellow ∨ p.2 = TaskStatus.grey) ∧
    (execs = [] → ∀ p, p ∈ createTaskStatuses tasks execs → p.2 = TaskStatus.grey) ∧
    createTaskStatuses [] execs = [] := by
  have hlook : ∀ t, t ∈ tasks →
      lookupAssoc t.name (createTaskStatuses tasks execs) = some (statusOf execs t.name) := by
    intro t ht
    unfold createTaskStatuses
    rw [statusFold_lookup]
    have hmem : t.name ∈ tasks.map Task.name := List.mem_map.mpr ⟨t, ht, rfl⟩
    simp [hmem]
  refine ⟨?_, ?_, ?_, ?_, rfl⟩
  · intro t ht
    rw [hlook t ht]
    rfl
  · intro t ht
    rw [hlook t ht]
    unfold statusOf
    constructor
    · intro h
      by_cases hc : execs.any (fun e => e.task.name == t.name)
      · simpa [List.any_eq_true] using hc
      · simp [hc] at h
    · rintro ⟨e, he, hn⟩
      have hc : execs.any (fun e => e.task.name == t.name) = true := by
        simp [List.any_eq_true]
        exact ⟨e, he, hn⟩
      simp [hc]
  · intro p hp
    rcases mem_statusFold execs tasks [] p hp with h | ⟨name, rfl⟩
    · simp at h
    · exact statusOf_cases execs name
  · intro he p hp
    subst he
    rcases mem_statusFold [] tasks [] p hp with h | ⟨name, rfl⟩
    · simp at h
    · exact statusOf_nil name

/-- Witness for C2 at a concrete input: task `"A"` with a matching execution
is reported as `yellow`. -/
theorem createTaskStatuses_spec_witness :
    lookupAssoc "A" (createTaskStatuses [taskA] [execA]) = some TaskStatus.yellow := by
  have h := ((createTaskStatuses_spec [taskA] [execA]).2.1 taskA (by simp)).mpr
    ⟨execA, by simp, rfl⟩
  simpa using h

/-- C8: the domain of the map returned by `createTaskStatuses` is exactly the
set of task names occurring in the input (one entry per distinct name,
last-write-wins), and two tasks both named `"build"` from different sources
with one execution referencing `"build"` yield the single entry
`build ↦ yellow`. -/
theorem createTaskStatuses_domain (tasks : List Task) (execs : List TaskExecution) :
    (keysOf (createTaskStatuses tasks execs)).Nodup ∧
    (∀ name, (lookupAssoc name (createTaskStatuses tasks execs)).isSome = true ↔
        ∃ t, t ∈ tasks ∧ t.name = name) ∧
    createTaskStatuses [buildTaskNpm, buildTaskGulp] [execBuild] =
      [("build", TaskStatus.yellow)] := by
  refine ⟨?_, ?_, by decide⟩
  · exact nodup_statusFold execs tasks [] (by simp [keysOf])
  · intro name
    unfold createTaskStatuses
    rw [statusFold_lookup]
    by_cases hmem : name ∈ tasks.map Task.name
    · simp only [hmem, if_pos]
      simp [List.mem_map] at hmem
      simpa using hmem
    · simp only [hmem, if_neg, if_false]
      simp [lookupAssoc]
      intro t ht hn
      exact hmem (List.mem_map.mpr ⟨t, ht, hn⟩)

/-- Witness for C8 at a concrete input: the name `"build"` is in the domain. -/
theorem createTaskStatuses_domain_witness :
    (lookupAssoc "build" (createTaskStatuses [buildTaskNpm] [])).isSome = true :=
  ((createTaskStatuses_domain [buildTaskNpm] []).2.1 "build").mpr
    ⟨buildTaskNpm, by simp, rfl⟩

/-- C9 fails on the code: with tasks `A, B, C` and executions referencing `A`
and `C`, the entry for `C` is `yellow` (running), not `grey` (idle) as the
claim states. -/
theorem statusExample_counterexample :
    lookupAssoc "C" (createTaskStatuses [taskA, taskB, taskC] [execA, execC]) =
        some TaskStatus.yellow ∧
    TaskStatus.yellow ≠ TaskStatus.grey := by decide

/-- C9 amended: with tasks `A, B, C` and executions referencing `A` and `C`,
the resulting map is `{A: running, B: idle, C: running}`. -/
theorem statusExample_amended :
    createTaskStatuses [taskA, taskB, taskC] [execA, execC] =
      [("A", TaskStatus.yellow), ("B", TaskStatus.grey), ("C", TaskStatus.yellow)] := by
  decide

section Routing

theorem organizeTasks_append (ts : List Task) (t : Task) :
    organizeTasks (ts ++ [t]) = organizeStep (organizeTasks ts) t := by
  simp [organizeTasks, List.foldl_append]

theorem workspaceTasks_filter (ts : List Task) :
    (organizeTasks ts).workspaceTasks = ts.filter isWorkspaceTask := by
  induction ts using List.reverseRecOn with
  | nil => rfl
  | append_singleton ts t ih =>
      rw [organizeTasks_append]
      by_cases h : isWorkspaceTask t = true
      · simp [organizeStep, h, ih, List.filter_append]
      · have hf : isWorkspaceTask t = false := by simpa using h
        simp [organizeStep, hf, ih, List.filter_append]

theorem isWorkspaceTask_iff (t : Task) :
    isWorkspaceTask t = true ↔
      (t.source = none ∨ t.source = some "" ∨ t.source = some "Workspace") := by
  cases hs : t.source with
  | none => simp [isWorkspaceTask, strTruthy, hs]
  | some s =>
      by_cases h1 : s = "Workspace" <;> by_cases h2 : s = "" <;>
        simp [isWorkspaceTask, strTruthy, hs, h1, h2]

theorem keys_orgProvider (t : Task) (gs : List (String × TaskGroup)) (a : String) :
    a ∈ keysOf (organizeProviderTask t gs) ↔
      a = sourceOrUnknown t ∨ a ∈ keysOf gs := by
  cases hg : extractTaskGroupName t with
  | none =>
      simp only [organizeProviderTask, hg]
      exact mem_keysOf_upsert a _ _ _ gs
  | some g =>
      simp only [organizeProviderTask, hg]
      exact mem_keysOf_upsert a _ _ _ gs

theorem sourceGroups_keys (ts : List Task) (a : String) :
    a ∈ keysOf (organizeTasks ts).sourceGroups ↔
      ∃ t, t ∈ ts ∧ isWorkspaceTask t = false ∧ sourceOrUnknown t = a := by
  induction ts using List.reverseRecOn with
  | nil => simp [organizeTasks, keysOf]
  | append_singleton ts t ih =>
      rw [organizeTasks_append]
      by_cases h : isWorkspaceTask t = true
      · have hstep : (organizeStep (organizeTasks ts) t).sourceGroups =
            (organizeTasks ts).sourceGroups := by
          simp [organizeStep, h]
        rw [hstep, ih]
        constructor
        · rintro ⟨x, hx, hw, hs⟩
          exact ⟨x, List.mem_append_left _ hx, hw, hs⟩
        · rintro ⟨x, hx, hw, hs⟩
          rcases List.mem_append.mp hx with hx | hx
          · exact ⟨x, hx, hw, hs⟩
          · rw [List.mem_singleton] at hx
            subst hx
            rw [h] at hw
            cases hw
      · have hf : isWorkspaceTask t = false := by simpa using h
        have hstep : (organizeStep (organizeTasks ts) t).sourceGroups =
            organizeProviderTask t (organizeTasks ts).sourceGroups := by
          simp [organizeStep, hf]
        rw [hstep, keys_orgProvider, ih]
        constructor
        · rintro (rfl | ⟨x, hx, hw, hs⟩)
          · exact ⟨t, List.mem_append_right _ (List.mem_singleton.mpr rfl), hf, rfl⟩
          · exact ⟨x, List.mem_append_left _ hx, hw, hs⟩
        · rintro ⟨x, hx, hw, hs⟩
          rcases List.mem_append.mp hx with hx | hx
          · exact Or.inr ⟨x, hx, hw, hs⟩
          · rw [List.mem_singleton] at hx
            subst hx
            exact Or.inl hs.symm

theorem orgProvider_lookup_none (t : Task) (gs : List (String × TaskGroup))
    (hg : extractTaskGroupName t = none) :
    ∃ tg, lookupAssoc (sourceOrUnknown t) (organizeProviderTask t gs) = some tg ∧
      t ∈ tg.tasks := by
  simp only [organizeProviderTask, hg]
  rw [lookupAssoc_upsert_self]
  exact ⟨_, rfl, by simp⟩

theorem orgProvider_lookup_some (t : Task) (g : String) (gs : List (String × TaskGroup))
    (hg : extractTaskGroupName t = some g) :
    ∃ tg l, lookupAssoc (sourceOrUnknown t) (organizeProviderTask t gs) = some tg ∧
      lookupAssoc g tg.subGroups = some l ∧ t ∈ l := by
  simp only [organizeProviderTask, hg]
  rw [lookupAssoc_upsert_self]
  refine ⟨_,
    (lookupAssoc g
      ((lookupAssoc (sourceOrUnknown t) gs).getD ⟨[], []⟩).subGroups).getD [] ++ [t],
    rfl, ?_, by simp⟩
  exact lookupAssoc_upsert_self ..

end Routing

/-- C3 fails as stated: a task whose `group` is the plain empty string is not
assigned group id `""` (it gets no group id and lands in the source's direct
tasks list), and a structured group with `id = ""` does not get id `""`
either (it defaults to `"build"`). -/
theorem groupResolution_counterexample :
    extractTaskGroupName tGroupEmptyStr ≠ some "" ∧
    (organizeTasks [tGroupEmptyStr]).sourceGroups =
      [("npm", { tasks := [tGroupEmptyStr], subGroups := [] })] ∧
    extractTaskGroupName tGroupEmptyId ≠ some "" := by decide

/-- C3 amended: the group id is resolved by JS truthiness: an absent group or
a plain empty-string group yields no id (direct tasks list); a non-empty
plain string is the id; a structured value's id is its `id` field, defaulting
to `"build"` when that field is absent or empty.  A task with no id lands in
its source's direct list, one with id `g` lands in subgroup `g`. -/
theorem groupResolution_amended (t : Task) (gs : List (String × TaskGroup)) :
    (t.group = none → extractTaskGroupName t = none) ∧
    (∀ s, t.group = some (TaskGroupValue.str s) →
        extractTaskGroupName t = if s = "" then none else some s) ∧
    (∀ i, t.group = some (TaskGroupValue.structured i) →
        extractTaskGroupName t =
          if i.getD "" = "" then some "build" else some (i.getD "")) ∧
    (extractTaskGroupName t = none →
        ∃ tg, lookupAssoc (sourceOrUnknown t) (organizeProviderTask t gs) = some tg ∧
          t ∈ tg.tasks) ∧
    (∀ g, extractTaskGroupName t = some g →
        ∃ tg l, lookupAssoc (sourceOrUnknown t) (organizeProviderTask t gs) = some tg ∧
          lookupAssoc g tg.subGroups = some l ∧ t ∈ l) := by
  refine ⟨?_, ?_, ?_, orgProvider_lookup_none t gs, fun g => orgProvider_lookup_some t g gs⟩
  · intro h
    simp [extractTaskGroupName, h]
  · intro s h
    by_cases hs : s = "" <;> simp [extractTaskGroupName, h, hs]
  · intro i h
    cases i with
    | none => simp [extractTaskGroupName, h]
    | some s => by_cases hs : s = "" <;> simp [extractTaskGroupName, h, hs]

/-- Witness for the amended C3 at a concrete input: the plain empty-string
group resolves to no group id. -/
theorem groupResolution_amended_witness :
    extractTaskGroupName tGroupEmptyStr = none := by
  have h := (groupResolution_amended tGroupEmptyStr []).2.1 "" rfl
  simpa using h

/-- C4 fails as stated: a task with `source` present but empty is routed to
`workspaceTasks` although its source is neither absent nor `"Workspace"`,
so the routing condition is not the claimed exact-match test alone. -/
theorem workspaceRouting_counterexample :
    isWorkspaceTask tEmptySource = true ∧
    tEmptySource.source ≠ none ∧
    tEmptySource.source ≠ some "Workspace" ∧
    (organizeTasks [tEmptySource]).workspaceTasks = [tEmptySource] := by decide

/-- C4 amended: a task routes to `workspaceTasks` iff its source is absent,
the empty string, or exactly `"Workspace"` (exact, case-sensitive match);
`workspaceTasks` is precisely the input filtered by that test, and a task
with source `"workspace"` (lower case) takes the provider path under source
key `"workspace"`. -/
theorem workspaceRouting_amended (ts : List Task) (t : Task) :
    (isWorkspaceTask t = true ↔
      (t.source = none ∨ t.source = some "" ∨ t.source = some "Workspace")) ∧
    (organizeTasks ts).workspaceTasks = ts.filter isWorkspaceTask ∧
    (t.source = some "workspace" →
      isWorkspaceTask t = false ∧
      "workspace" ∈ keysOf (organizeTasks [t]).sourceGroups) := by
  refine ⟨isWorkspaceTask_iff t, workspaceTasks_filter ts, ?_⟩
  intro hs
  have hf : isWorkspaceTask t = false := by
    simp [isWorkspaceTask, strTruthy, hs]
  refine ⟨hf, ?_⟩
  have hsrc : sourceOrUnknown t = "workspace" := by
    simp [sourceOrUnknown, hs]
  exact (sourceGroups_keys [t] "workspace").mpr ⟨t, by simp, hf, hsrc⟩

/-- Witness for the amended C4 at a concrete input: lower-case `"workspace"`
goes to the provider path under key `"workspace"`. -/
theorem workspaceRouting_amended_witness :
    isWorkspaceTask wsLowerTask = false ∧
    "workspace" ∈ keysOf (organizeTasks [wsLowerTask]).sourceGroups :=
  (workspaceRouting_amended [] wsLowerTask).2.2 rfl

/-- C5 fails as stated: a task with `source = ""` (present but empty) is a
workspace task (`!task.source` is true for the empty string), so it lands in
`workspaceTasks` and no `"Unknown"` source group is created for it. -/
theorem unknownSource_counterexample :
    tEmptySource ∈ (organizeTasks [tEmptySource]).workspaceTasks ∧
    lookupAssoc "Unknown" (organizeTasks [tEmptySource]).sourceGroups = none := by
  decide

/-- C5 amended: a task whose `source` field is present but equal to the empty
string satisfies the workspace test and is routed to `workspaceTasks`; it
never reaches the provider path, so the `"Unknown"` fallback of
`organizeProviderTask` is not exercised by such a task. -/
theorem unknownSource_amended (ts : List Task) (t : Task)
    (h : t.source = some "") (hm : t ∈ ts) :
    isWorkspaceTask t = true ∧ t ∈ (organizeTasks ts).workspaceTasks := by
  have hw : isWorkspaceTask t = true := by
    simp [isWorkspaceTask, strTruthy, h]
  refine ⟨hw, ?_⟩
  rw [workspaceTasks_filter]
  exact List.mem_filter.mpr ⟨hm, hw⟩

/-- Witness for the amended C5 at a concrete input. -/
theorem unknownSource_amended_witness :
    isWorkspaceTask tEmptySource = true ∧
    tEmptySource ∈ (organizeTasks [tEmptySource]).workspaceTasks :=
  unknownSource_amended [tEmptySource] tEmptySource rfl (by simp)

/-- C7: the key set of `sourceGroups` is exactly the set of effective source
keys of the provider-routed tasks (an entry exists for every distinct such
source, even if all its tasks ended up in subgroups, and no other key
occurs); moreover for a provider-routed task the effective source key is its
actual `source` value. -/
theorem sourceGroups_keySet (ts : List Task) :
    (∀ a, a ∈ keysOf (organizeTasks ts).sourceGroups ↔
        ∃ t, t ∈ ts ∧ isWorkspaceTask t = false ∧ sourceOrUnknown t = a) ∧
    (∀ t : Task, isWorkspaceTask t = false →
        ∃ s, t.source = some s ∧ sourceOrUnknown t = s) := by
  refine ⟨fun a => sourceGroups_keys ts a, ?_⟩
  intro t hw
  cases hs : t.source with
  | none => simp [isWorkspaceTask, strTruthy, hs] at hw
  | some s =>
      refine ⟨s, rfl, ?_⟩
      have hne : s ≠ "" := by
        intro h
        subst h
        simp [isWorkspaceTask, strTruthy, hs] at hw
      simp [sourceOrUnknown, hs, hne]

/-- Witness for C7 at a concrete input: source `"npm"` gets an entry. -/
theorem sourceGroups_keySet_witness :
    "npm" ∈ keysOf (organizeTasks [taskA]).sourceGroups :=
  ((sourceGroups_keySet [taskA]).1 "npm").mpr ⟨taskA, by simp, by decide, by decide⟩

section EmptyGroup

theorem extractTaskGroupName_ne_empty (t : Task) :
    extractTaskGroupName t ≠ some "" := by
  unfold extractTaskGroupName
  cases hg : t.group with
  | none => simp
  | some v =>
      cases v with
      | str s => by_cases hs : s = "" <;> simp [hs]
      | structured i =>
          cases i with
          | none => simp
          | some s => by_cases hs : s = "" <;> simp [hs]

theorem no_empty_subgroup_key (ts : List Task) :
    ∀ p, p ∈ (organizeTasks ts).sourceGroups →
      lookupAssoc "" p.2.subGroups = none := by
  induction ts using List.reverseRecOn with
  | nil =>
      intro p hp
      simp [organizeTasks] at hp
  | append_singleton ts t ih =>
      rw [organizeTasks_append]
      intro p hp
      by_cases h : isWorkspaceTask t = true
      · have hstep : (organizeStep (organizeTasks ts) t).sourceGroups =
            (organizeTasks ts).sourceGroups := by
          simp [organizeStep, h]
        rw [hstep] at hp
        exact ih p hp
      · have hf : isWorkspaceTask t = false := by simpa using h
        have hstep : (organizeStep (organizeTasks ts) t).sourceGroups =
            organizeProviderTask t (organizeTasks ts).sourceGroups := by
          simp [organizeStep, hf]
        rw [hstep] at hp
        cases hg : extractTaskGroupName t with
        | none =>
            simp only [organizeProviderTask, hg] at hp
            rcases mem_upsert _ _ _ _ hp with h1 | ⟨v, rfl, h2⟩
            · exact ih p h1
            · rcases h2 with h2 | rfl
              · exact ih (sourceOrUnknown t, v) h2
              · rfl
        | some g =>
            have hgne : ("" : String) ≠ g := by
              intro h0
              exact extractTaskGroupName_ne_empty t (by rw [hg, h0])
            simp only [organizeProviderTask, hg] at hp
            rcases mem_upsert _ _ _ _ hp with h1 | ⟨v, rfl, h2⟩
            · exact ih p h1
            · show lookupAssoc ""
                (upsert g [] (fun l => l ++ [t]) v.subGroups) = none
              rw [lookupAssoc_upsert_ne _ _ _ _ _ hgne]
              rcases h2 with h2 | rfl
              · exact ih _ h2
              · rfl

end EmptyGroup

/-- C10: a provider task whose `group` is the plain empty string gets no
group id and lands in its source's direct tasks list; no subgroup keyed `""`
ever exists in the organized output; and a structured group with an empty
`id` defaults to `"build"`, so the task lands in subgroup `"build"`. -/
theorem emptyGroupResolution (t : Task) (gs : List (String × TaskGroup))
    (ts : List Task) :
    (t.group = some (TaskGroupValue.str "") →
      extractTaskGroupName t = none ∧
      ∃ tg, lookupAssoc (sourceOrUnknown t) (organizeProviderTask t gs) = some tg ∧
        t ∈ tg.tasks) ∧
    (∀ p, p ∈ (organizeTasks ts).sourceGroups →
        lookupAssoc "" p.2.subGroups = none) ∧
    (t.group = some (TaskGroupValue.structured (some "")) →
      extractTaskGroupName t = some "build" ∧
      ∃ tg l, lookupAssoc (sourceOrUnknown t) (organizeProviderTask t gs) = some tg ∧
        lookupAssoc "build" tg.subGroups = some l ∧ t ∈ l) := by
  refine ⟨?_, no_empty_subgroup_key ts, ?_⟩
  · intro h
    have hg : extractTaskGroupName t = none := by
      simp [extractTaskGroupName, h]
    exact ⟨hg, orgProvider_lookup_none t gs hg⟩
  · intro h
    have hg : extractTaskGroupName t = some "build" := by
      simp [extractTaskGroupName, h]
    exact ⟨hg, orgProvider_lookup_some t "build" gs hg⟩

/-- Witness for C10 at a concrete input: the empty plain-string group routes
to the direct tasks list of source `"npm"`. -/
theorem emptyGroupResolution_witness :
    extractTaskGroupName tGroupEmptyStr = none ∧
    ∃ tg, lookupAssoc (sourceOrUnknown tGroupEmptyStr)
        (organizeProviderTask tGroupEmptyStr []) = some tg ∧
      tGroupEmptyStr ∈ tg.tasks :=
  (emptyGroupResolution tGroupEmptyStr [] []).1 rfl

section OrderPreservation

theorem org_sublists_step (acc : OrganizedTasks) (ts : List Task) (t : Task)
    (hw : acc.workspaceTasks.Sublist ts)
    (hg : ∀ p, p ∈ acc.sourceGroups →
      p.2.tasks.Sublist ts ∧ ∀ q, q ∈ p.2.subGroups → q.2.Sublist ts) :
    (organizeStep acc t).workspaceTasks.Sublist (ts ++ [t]) ∧
    ∀ p, p ∈ (organizeStep acc t).sourceGroups →
      p.2.tasks.Sublist (ts ++ [t]) ∧
      ∀ q, q ∈ p.2.subGroups → q.2.Sublist (ts ++ [t]) := by
  have lift : ∀ {l : List Task}, l.Sublist ts → l.Sublist (ts ++ [t]) :=
    fun h => h.trans (List.sublist_append_left ts [t])
  by_cases h : isWorkspaceTask t = true
  · constructor
    · simpa [organizeStep, h] using hw.append (List.Sublist.refl [t])
    · intro p hp
      have hps : p ∈ acc.sourceGroups := by
        simpa [organizeStep, h] using hp
      exact ⟨lift (hg p hps).1, fun q hq => lift ((hg p hps).2 q hq)⟩
  · have hf : isWorkspaceTask t = false := by simpa using h
    constructor
    · simpa [organizeStep, hf] using lift hw
    · intro p hp
      have hps : p ∈ organizeProviderTask t acc.sourceGroups := by
        simpa [organizeStep, hf] using hp
      cases hgname : extractTaskGroupName t with
      | none =>
          simp only [organizeProviderTask, hgname] at hps
          rcases mem_upsert _ _ _ _ hps with h1 | ⟨v, rfl, h2⟩
          · exact ⟨lift (hg p h1).1, fun q hq => lift ((hg p h1).2 q hq)⟩
          · have hv : v.tasks.Sublist ts ∧ ∀ q, q ∈ v.subGroups → q.2.Sublist ts := by
              rcases h2 with h2 | rfl
              · exact hg _ h2
              · exact ⟨List.nil_sublist ts, by simp⟩
            exact ⟨hv.1.append (List.Sublist.refl [t]), fun q hq => lift (hv.2 q hq)⟩
      | some g =>
          simp only [organizeProviderTask, hgname] at hps
          rcases mem_upsert _ _ _ _ hps with h1 | ⟨v, rfl, h2⟩
          · exact ⟨lift (hg p h1).1, fun q hq => lift ((hg p h1).2 q hq)⟩
          · have hv : v.tasks.Sublist ts ∧ ∀ q, q ∈ v.subGroups → q.2.Sublist ts := by
              rcases h2 with h2 | rfl
              · exact hg _ h2
              · exact ⟨List.nil_sublist ts, by simp⟩
            refine ⟨lift hv.1, ?_⟩
            intro q hq
            have hq' : q ∈ upsert g [] (fun l => l ++ [t]) v.subGroups := hq
            rcases mem_upsert _ _ _ _ hq' with hq1 | ⟨w, rfl, hw2⟩
            · exact lift (hv.2 q hq1)
            · have hww : w.Sublist ts := by
                rcases hw2 with hw2 | rfl
                · exact hv.2 _ hw2
                · exact List.nil_sublist ts
              exact hww.append (List.Sublist.refl [t])

end OrderPreservation

/-- C6: within every output bucket of `organizeTasks` (the workspace list, a
source's direct tasks list, or a subgroup list), the bucket is a sublist of
the input list, so the relative order of any two tasks that share a bucket
matches their relative order in the input (stable partition, no sorting). -/
theorem organizeTasks_orderPreserving (ts : List Task) :
    (organizeTasks ts).workspaceTasks.Sublist ts ∧
    ∀ p, p ∈ (organizeTasks ts).sourceGroups →
      p.2.tasks.Sublist ts ∧ ∀ q, q ∈ p.2.subGroups → q.2.Sublist ts := by
  induction ts using List.reverseRecOn with
  | nil =>
      refine ⟨by simp [organizeTasks], ?_⟩
      intro p hp
      simp [organizeTasks] at hp
  | append_singleton ts t ih =>
      rw [organizeTasks_append]
      exact org_sublists_step (organizeTasks ts) ts t ih.1 ih.2

/-- Witness for C6 at a concrete input: the direct tasks list of source
`"npm"` is a sublist of the input. -/
theorem organizeTasks_orderPreserving_witness :
    ({ tasks := [taskA], subGroups := [] } : TaskGroup).tasks.Sublist [taskA] :=
  ((organizeTasks_orderPreserving [taskA]).2
    ("npm", { tasks := [taskA], subGroups := [] }) (by decide)).1

end TaskView
